import Mathlib

/-!
Verification of the state ownership / embedding / session-snapshot layer of the
data-formulator application, against the behaviour of `src/app/App.tsx` and the
specified contracts of the modules it calls (`dfSlice`, `embed`, `utils`).

The JSON model below embeds the platform pair `JSON.stringify` / `JSON.parse`
used by the export and import buttons: values are the acyclic JSON data
producible by serializing the application state (numbers restricted to
integers), `jsonStringify` follows the ECMA-262 QuoteJSONString escaping rules,
and `parseTopLevel` is a recursive-descent parser that accepts exactly compact
JSON texts and fails (returns `none`) on malformed input, as `JSON.parse`
throws.
-/

namespace DF

-- JSON values, with arrays and objects as bespoke mutual list types so that
-- structural recursion and induction over the nesting are direct. Numbers are
-- modelled as integers.
mutual

/-- A JSON value. -/
inductive Json where
  | str (s : String)
  | num (n : Int)
  | bool (b : Bool)
  | null
  | arr (elems : JsonArr)
  | obj (fields : JsonObj)

/-- The element list of a JSON array. -/
inductive JsonArr where
  | nil
  | cons (hd : Json) (tl : JsonArr)

/-- The member list of a JSON object. -/
inductive JsonObj where
  | nil
  | cons (key : String) (val : Json) (tl : JsonObj)

end

/-- The opening brace character. -/
def lbrace : Char := Char.ofNat 123

/-- The closing brace character. -/
def rbrace : Char := Char.ofNat 125

/-- Lower-case hexadecimal digit for a value below 16. -/
def hexChar (n : Nat) : Char :=
  if n < 10 then Char.ofNat (48 + n) else Char.ofNat (87 + n)

/-- Escape one character the way ECMA-262 QuoteJSONString does: quote and
backslash get a backslash escape, the named control characters get their
two-character escapes, any other control character becomes a u-escape, and
everything else is emitted verbatim. -/
def escapeChar (c : Char) : List Char :=
  if c = '"' then ['\\', '"']
  else if c = '\\' then ['\\', '\\']
  else if c = Char.ofNat 8 then ['\\', 'b']
  else if c = Char.ofNat 9 then ['\\', 't']
  else if c = Char.ofNat 10 then ['\\', 'n']
  else if c = Char.ofNat 12 then ['\\', 'f']
  else if c = Char.ofNat 13 then ['\\', 'r']
  else if c.toNat < 32 then
    ['\\', 'u', '0', '0', hexChar (c.toNat / 16), hexChar (c.toNat % 16)]
  else [c]

/-- Escape a whole character list. -/
def escapeChars : List Char → List Char
  | [] => []
  | c :: cs => escapeChar c ++ escapeChars cs

/-- A JSON string literal: quote, escaped body, quote. -/
def quoteChars (cs : List Char) : List Char :=
  '"' :: escapeChars cs ++ ['"']

/-- Decimal digit character. -/
def digitChar (d : Nat) : Char := Char.ofNat (48 + d)

/-- Decimal digits of a natural number, most significant first. -/
def natDigits (n : Nat) : List Nat :=
  if h : n < 10 then [n] else natDigits (n / 10) ++ [n % 10]
termination_by n
decreasing_by exact Nat.div_lt_self (by omega) (by omega)

/-- Decimal character rendering of a natural number. -/
def natChars (n : Nat) : List Char := (natDigits n).map digitChar

/-- Decimal character rendering of an integer, as JSON.stringify prints it. -/
def intChars (i : Int) : List Char :=
  if i < 0 then '-' :: natChars i.natAbs else natChars i.natAbs

mutual

/-- Compact serialization of a JSON value, exactly as `JSON.stringify` with no
spacing argument produces it. -/
def stringifyVal : Json → List Char
  | .str s => quoteChars s.data
  | .num n => intChars n
  | .bool b => if b then ['t', 'r', 'u', 'e'] else ['f', 'a', 'l', 's', 'e']
  | .null => ['n', 'u', 'l', 'l']
  | .arr a => '[' :: stringifyArrAll a ++ [']']
  | .obj o => lbrace :: stringifyObjAll o ++ [rbrace]

/-- Serialize the element list of an array (no brackets). -/
def stringifyArrAll : JsonArr → List Char
  | .nil => []
  | .cons h t => stringifyVal h ++ stringifyArrTail t

/-- Serialize all elements after the first, each preceded by a comma. -/
def stringifyArrTail : JsonArr → List Char
  | .nil => []
  | .cons h t => ',' :: stringifyVal h ++ stringifyArrTail t

/-- Serialize one key/value member of an object. -/
def stringifyMember (k : String) (v : Json) : List Char :=
  quoteChars k.data ++ ':' :: stringifyVal v

/-- Serialize the member list of an object (no braces). -/
def stringifyObjAll : JsonObj → List Char
  | .nil => []
  | .cons k v t => stringifyMember k v ++ stringifyObjTail t

/-- Serialize all members after the first, each preceded by a comma. -/
def stringifyObjTail : JsonObj → List Char
  | .nil => []
  | .cons k v t => ',' :: stringifyMember k v ++ stringifyObjTail t

end

/-- String form of a serialized JSON value. -/
def jsonStringify (j : Json) : String := String.mk (stringifyVal j)

/-- Inverse of the single-character escapes accepted after a backslash. -/
def unescapeChar (c : Char) : Option Char :=
  if c = '"' then some '"'
  else if c = '\\' then some '\\'
  else if c = '/' then some '/'
  else if c = 'b' then some (Char.ofNat 8)
  else if c = 't' then some (Char.ofNat 9)
  else if c = 'n' then some (Char.ofNat 10)
  else if c = 'f' then some (Char.ofNat 12)
  else if c = 'r' then some (Char.ofNat 13)
  else none

/-- Value of a hexadecimal digit character. -/
def hexVal (c : Char) : Option Nat :=
  if 48 ≤ c.toNat ∧ c.toNat ≤ 57 then some (c.toNat - 48)
  else if 97 ≤ c.toNat ∧ c.toNat ≤ 102 then some (c.toNat - 87)
  else if 65 ≤ c.toNat ∧ c.toNat ≤ 70 then some (c.toNat - 55)
  else none

/-- Parse the body of a JSON string literal after the opening quote, returning
the unescaped content and the input remaining after the closing quote. -/
def parseStrBody : List Char → Option (List Char × List Char)
  | [] => none
  | c :: cs =>
    if c = '"' then some ([], cs)
    else if c = '\\' then
      match cs with
      | [] => none
      | e :: cs2 =>
        if e = 'u' then
          match cs2 with
          | h1 :: h2 :: h3 :: h4 :: cs3 =>
            match hexVal h1, hexVal h2, hexVal h3, hexVal h4 with
            | some a, some b, some d1, some d0 =>
              let n := ((a * 16 + b) * 16 + d1) * 16 + d0
              if n < 55296 then
                match parseStrBody cs3 with
                | some (content, r) => some (Char.ofNat n :: content, r)
                | none => none
              else none
            | _, _, _, _ => none
          | _ => none
        else
          match unescapeChar e with
          | some c2 =>
            match parseStrBody cs2 with
            | some (content, r) => some (c2 :: content, r)
            | none => none
          | none => none
    else
      match parseStrBody cs with
      | some (content, r) => some (c :: content, r)
      | none => none
termination_by cs => cs.length

/-- Numeric value of a decimal digit character. -/
def digitVal (c : Char) : Nat := c.toNat - 48

/-- Decimal digit test. -/
def isDigitCh (c : Char) : Bool := 48 ≤ c.toNat && c.toNat ≤ 57

/-- Split the longest decimal-digit run off the front of the input. -/
def parseDigitList : List Char → List Nat × List Char
  | [] => ([], [])
  | c :: cs =>
    if isDigitCh c then
      let p := parseDigitList cs
      (digitVal c :: p.1, p.2)
    else ([], c :: cs)

/-- Value of a most-significant-first decimal digit list. -/
def digitsToNat (ds : List Nat) : Nat := ds.foldl (fun a d => a * 10 + d) 0

/-- Parse a decimal natural number (at least one digit). -/
def parseNatNum (cs : List Char) : Option (Nat × List Char) :=
  match parseDigitList cs with
  | ([], _) => none
  | (ds, r) => some (digitsToNat ds, r)

/-- Consume an expected literal character sequence. -/
def stripPre : List Char → List Char → Option (List Char)
  | [], cs => some cs
  | _ :: _, [] => none
  | p :: ps, c :: cs => if c = p then stripPre ps cs else none

mutual

/-- Fuel-bounded recursive-descent parse of one JSON value. -/
def parseVal : Nat → List Char → Option (Json × List Char)
  | 0, _ => none
  | fuel + 1, cs =>
    match cs with
    | [] => none
    | c :: rest =>
      if c = '"' then
        match parseStrBody rest with
        | some (content, r) => some (.str (String.mk content), r)
        | none => none
      else if c = '-' then
        match parseNatNum rest with
        | some (n, r) => some (.num (-(n : Int)), r)
        | none => none
      else if isDigitCh c then
        match parseNatNum (c :: rest) with
        | some (n, r) => some (.num (n : Int), r)
        | none => none
      else if c = 't' then
        match stripPre ['r', 'u', 'e'] rest with
        | some r => some (.bool true, r)
        | none => none
      else if c = 'f' then
        match stripPre ['a', 'l', 's', 'e'] rest with
        | some r => some (.bool false, r)
        | none => none
      else if c = 'n' then
        match stripPre ['u', 'l', 'l'] rest with
        | some r => some (.null, r)
        | none => none
      else if c = '[' then
        match rest with
        | [] => none
        | c2 :: r2 =>
          if c2 = ']' then some (.arr .nil, r2)
          else
            match parseVal fuel (c2 :: r2) with
            | some (v, r3) =>
              match parseArrRest fuel r3 with
              | some (vs, r4) => some (.arr (.cons v vs), r4)
              | none => none
            | none => none
      else if c = lbrace then
        match rest with
        | [] => none
        | c2 :: r2 =>
          if c2 = rbrace then some (.obj .nil, r2)
          else
            match parseMember fuel (c2 :: r2) with
            | some (k, v, r3) =>
              match parseObjRest fuel r3 with
              | some (ms, r4) => some (.obj (.cons k v ms), r4)
              | none => none
            | none => none
      else none

/-- Parse the continuation of an array after one element: either the closing
bracket or a comma followed by another element. -/
def parseArrRest : Nat → List Char → Option (JsonArr × List Char)
  | 0, _ => none
  | fuel + 1, cs =>
    match cs with
    | [] => none
    | c :: rest =>
      if c = ']' then some (.nil, rest)
      else if c = ',' then
        match parseVal fuel rest with
        | some (v, r1) =>
          match parseArrRest fuel r1 with
          | some (vs, r2) => some (.cons v vs, r2)
          | none => none
        | none => none
      else none

/-- Parse one key/value member of an object. -/
def parseMember : Nat → List Char → Option (String × Json × List Char)
  | 0, _ => none
  | fuel + 1, cs =>
    match cs with
    | [] => none
    | c :: rest =>
      if c = '"' then
        match parseStrBody rest with
        | some (kcs, r1) =>
          match r1 with
          | [] => none
          | c2 :: r2 =>
            if c2 = ':' then
              match parseVal fuel r2 with
              | some (v, r3) => some (String.mk kcs, v, r3)
              | none => none
            else none
        | none => none
      else none

/-- Parse the continuation of an object after one member: either the closing
brace or a comma followed by another member. -/
def parseObjRest : Nat → List Char → Option (JsonObj × List Char)
  | 0, _ => none
  | fuel + 1, cs =>
    match cs with
    | [] => none
    | c :: rest =>
      if c = rbrace then some (.nil, rest)
      else if c = ',' then
        match parseMember fuel rest with
        | some (k, v, r1) =>
          match parseObjRest fuel r1 with
          | some (ms, r2) => some (.cons k v ms, r2)
          | none => none
        | none => none
      else none

end

/-- Parse of a complete JSON text, as `JSON.parse`: the whole input must be
one JSON value, otherwise the parse fails. The fuel exceeds the nesting
budget of any input of this length. -/
def parseTopLevel (s : String) : Option Json :=
  match parseVal (s.data.length + 2) s.data with
  | some (j, []) => some j
  | _ => none

/-- Does the input start with something other than a decimal digit? Delimits
where a serialized number may stop. -/
def headNonDigit : List Char → Bool
  | [] => true
  | c :: _ => !isDigitCh c

/-- Rebuilding a string from its character data is the identity. -/
theorem strMk_data : ∀ s : String, String.mk s.data = s := fun ⟨_⟩ => rfl

/-- A decimal digit character is recognised as a digit. -/
theorem isDigitCh_digitChar (d : Nat) (h : d < 10) :
    isDigitCh (digitChar d) = true := by
  interval_cases d <;> decide

/-- Digit value inverts digit rendering. -/
theorem digitVal_digitChar (d : Nat) (h : d < 10) : digitVal (digitChar d) = d := by
  interval_cases d <;> decide

/-- Digit characters are not structural JSON delimiters or sign characters. -/
theorem digitChar_ne (d : Nat) (h : d < 10) :
    digitChar d ≠ '"' ∧ digitChar d ≠ '-' ∧ digitChar d ≠ ']' := by
  interval_cases d <;> exact ⟨by decide, by decide, by decide⟩

/-- Digit lists of a natural number are never empty. -/
theorem natDigits_ne_nil (n : Nat) : natDigits n ≠ [] := by
  rw [natDigits]; split <;> simp

/-- Every entry of `natDigits` is a decimal digit. -/
theorem natDigits_lt (n : Nat) : ∀ d ∈ natDigits n, d < 10 := by
  induction n using Nat.strong_induction_on with
  | _ n ih =>
    rw [natDigits]
    split
    · intro d hd
      simp only [List.mem_singleton] at hd
      omega
    · intro d hd
      rcases List.mem_append.mp hd with h | h
      · exact ih (n / 10) (Nat.div_lt_self (by omega) (by omega)) d h
      · simp only [List.mem_singleton] at h
        omega

/-- Folding one more digit onto the value. -/
theorem digitsToNat_append (ds : List Nat) (d : Nat) :
    digitsToNat (ds ++ [d]) = digitsToNat ds * 10 + d := by
  simp [digitsToNat, List.foldl_append]

/-- The value of the digit list of `n` is `n`. -/
theorem digitsToNat_natDigits (n : Nat) : digitsToNat (natDigits n) = n := by
  induction n using Nat.strong_induction_on with
  | _ n ih =>
    rw [natDigits]
    split
    · simp [digitsToNat]
    · rw [digitsToNat_append, ih (n / 10) (Nat.div_lt_self (by omega) (by omega))]
      omega

/-- The digit scanner splits a rendered digit run off the front exactly. -/
theorem parseDigitList_digits (ds : List Nat) (r : List Char)
    (hds : ∀ d ∈ ds, d < 10) (hr : headNonDigit r = true) :
    parseDigitList (ds.map digitChar ++ r) = (ds, r) := by
  induction ds with
  | nil =>
    cases r with
    | nil => simp [parseDigitList]
    | cons c cs =>
      simp only [headNonDigit, Bool.not_eq_true'] at hr
      simp [parseDigitList, hr]
  | cons d ds ih =>
    have hd : d < 10 := hds d (by simp)
    have ih2 := ih (fun x hx => hds x (by simp [hx]))
    simp only [List.map_cons, List.cons_append, parseDigitList,
      isDigitCh_digitChar d hd, if_true, List.append_eq, ih2,
      digitVal_digitChar d hd]

/-- Parsing a rendered natural number recovers it. -/
theorem parseNatNum_natChars (n : Nat) (r : List Char) (hr : headNonDigit r = true) :
    parseNatNum (natChars n ++ r) = some (n, r) := by
  unfold parseNatNum natChars
  rw [parseDigitList_digits _ _ (natDigits_lt n) hr]
  cases hnd : natDigits n with
  | nil => exact absurd hnd (natDigits_ne_nil n)
  | cons d ds =>
    show some (digitsToNat (d :: ds), r) = some (n, r)
    rw [← hnd, digitsToNat_natDigits]

/-- Hexadecimal digit value inverts hexadecimal rendering below 16. -/
theorem hexVal_hexChar (m : Nat) (h : m < 16) : hexVal (hexChar m) = some m := by
  interval_cases m <;> decide

/-- Reading a two-character escape reduces to unescaping and recursing. -/
theorem parseStrBody_esc2 (e c0 : Char) (tl : List Char)
    (he : e ≠ 'u') (hu : unescapeChar e = some c0) :
    parseStrBody ('\\' :: e :: tl) =
      (match parseStrBody tl with
        | some (content, r) => some (c0 :: content, r)
        | none => none) := by
  rw [parseStrBody.eq_def]
  simp +decide [he, hu]

/-- Unescaping a serialized string body recovers its characters exactly. -/
theorem parseStrBody_escape (cs r : List Char) :
    parseStrBody (escapeChars cs ++ '"' :: r) = some (cs, r) := by
  induction cs with
  | nil =>
    show parseStrBody ('"' :: r) = some ([], r)
    rw [parseStrBody.eq_def]
    simp +decide
  | cons c cs ih =>
    show parseStrBody ((escapeChar c ++ escapeChars cs) ++ '"' :: r) = _
    by_cases h1 : c = '"'
    · subst h1
      rw [show escapeChar '"' = ['\\', '"'] from by decide]
      simp only [List.cons_append, List.nil_append]
      rw [parseStrBody_esc2 '"' '"' _ (by decide) (by decide), ih]
    · by_cases h2 : c = '\\'
      · subst h2
        rw [show escapeChar '\\' = ['\\', '\\'] from by decide]
        simp only [List.cons_append, List.nil_append]
        rw [parseStrBody_esc2 '\\' '\\' _ (by decide) (by decide), ih]
      · by_cases h3 : c = Char.ofNat 8
        · subst h3
          rw [show escapeChar (Char.ofNat 8) = ['\\', 'b'] from by decide]
          simp only [List.cons_append, List.nil_append]
          rw [parseStrBody_esc2 'b' (Char.ofNat 8) _ (by decide) (by decide), ih]
        · by_cases h4 : c = Char.ofNat 9
          · subst h4
            rw [show escapeChar (Char.ofNat 9) = ['\\', 't'] from by decide]
            simp only [List.cons_append, List.nil_append]
            rw [parseStrBody_esc2 't' (Char.ofNat 9) _ (by decide) (by decide), ih]
          · by_cases h5 : c = Char.ofNat 10
            · subst h5
              rw [show escapeChar (Char.ofNat 10) = ['\\', 'n'] from by decide]
              simp only [List.cons_append, List.nil_append]
              rw [parseStrBody_esc2 'n' (Char.ofNat 10) _ (by decide) (by decide), ih]
            · by_cases h6 : c = Char.ofNat 12
              · subst h6
                rw [show escapeChar (Char.ofNat 12) = ['\\', 'f'] from by decide]
                simp only [List.cons_append, List.nil_append]
                rw [parseStrBody_esc2 'f' (Char.ofNat 12) _ (by decide) (by decide), ih]
              · by_cases h7 : c = Char.ofNat 13
                · subst h7
                  rw [show escapeChar (Char.ofNat 13) = ['\\', 'r'] from by decide]
                  simp only [List.cons_append, List.nil_append]
                  rw [parseStrBody_esc2 'r' (Char.ofNat 13) _ (by decide) (by decide), ih]
                · by_cases h8 : c.toNat < 32
                  · have hesc : escapeChar c =
                        ['\\', 'u', '0', '0', hexChar (c.toNat / 16),
                          hexChar (c.toNat % 16)] := by
                      simp [escapeChar, h1, h2, h3, h4, h5, h6, h7, h8]
                    rw [hesc]
                    have hdiv : c.toNat / 16 < 16 := by omega
                    have hmod : c.toNat % 16 < 16 := by omega
                    have h0 : hexVal '0' = some 0 := by decide
                    simp only [List.cons_append, List.nil_append]
                    rw [parseStrBody.eq_def]
                    simp +decide only [h0, hexVal_hexChar _ hdiv, hexVal_hexChar _ hmod]
                    have hval : ((0 * 16 + 0) * 16 + c.toNat / 16) * 16 +
                        c.toNat % 16 = c.toNat := by omega
                    rw [hval]
                    have hlt : c.toNat < 55296 := by omega
                    simp only [hlt, if_true, if_false, ih, Char.ofNat_toNat]
                  · have hesc : escapeChar c = [c] := by
                      simp [escapeChar, h1, h2, h3, h4, h5, h6, h7, h8]
                    rw [hesc]
                    simp only [List.cons_append, List.nil_append]
                    rw [parseStrBody.eq_def]
                    simp only [h1, h2, if_false, ih]

mutual

/-- Fuel needed by `parseVal` to parse a serialized value. -/
def wVal : Json → Nat
  | .str _ => 1
  | .num _ => 1
  | .bool _ => 1
  | .null => 1
  | .arr a => 1 + wArr a
  | .obj o => 1 + wObj o

/-- Fuel needed by `parseArrRest` for a serialized array continuation. -/
def wArr : JsonArr → Nat
  | .nil => 1
  | .cons h t => 1 + max (wVal h) (wArr t)

/-- Fuel needed by `parseObjRest` for a serialized object continuation. -/
def wObj : JsonObj → Nat
  | .nil => 1
  | .cons _ v t => 2 + max (wVal v) (wObj t)

end

/-- All parse weights are positive. -/
theorem wVal_pos (j : Json) : 1 ≤ wVal j := by
  cases j <;> rw [wVal] <;> omega

/-- Array-continuation weight is positive. -/
theorem wArr_pos (a : JsonArr) : 1 ≤ wArr a := by
  cases a <;> rw [wArr] <;> omega

/-- Object-continuation weight is positive. -/
theorem wObj_pos (o : JsonObj) : 1 ≤ wObj o := by
  cases o <;> rw [wObj] <;> omega

/-- A serialized value is nonempty and never starts with a closing bracket. -/
theorem stringifyVal_head (j : Json) :
    ∃ c tl, stringifyVal j = c :: tl ∧ c ≠ ']' := by
  cases j with
  | str s =>
    exact ⟨'"', escapeChars s.data ++ ['"'], by rw [stringifyVal]; simp [quoteChars], by decide⟩
  | num n =>
    by_cases hn : n < 0
    · have heq : stringifyVal (Json.num n) = '-' :: natChars n.natAbs := by
        rw [stringifyVal]
        simp [intChars, hn]
      exact ⟨'-', natChars n.natAbs, heq, by decide⟩
    · cases hnd : natDigits n.natAbs with
      | nil => exact absurd hnd (natDigits_ne_nil _)
      | cons d ds =>
        have hd : d < 10 := natDigits_lt _ d (by rw [hnd]; simp)
        have heq : stringifyVal (Json.num n) = digitChar d :: ds.map digitChar := by
          rw [stringifyVal]
          simp [intChars, hn, natChars, hnd]
        exact ⟨digitChar d, ds.map digitChar, heq, (digitChar_ne d hd).2.2⟩
  | bool b =>
    cases b
    · exact ⟨'f', ['a', 'l', 's', 'e'], by rw [stringifyVal]; simp, by decide⟩
    · exact ⟨'t', ['r', 'u', 'e'], by rw [stringifyVal]; simp, by decide⟩
  | null => exact ⟨'n', ['u', 'l', 'l'], by rw [stringifyVal], by decide⟩
  | arr a => exact ⟨'[', stringifyArrAll a ++ [']'], by rw [stringifyVal]; simp, by decide⟩
  | obj o => exact ⟨lbrace, stringifyObjAll o ++ [rbrace], by rw [stringifyVal]; simp, by decide⟩

/-- A serialized array continuation starts with a comma or closing bracket. -/
theorem headNonDigit_arrTail (t : JsonArr) (r : List Char) :
    headNonDigit (stringifyArrTail t ++ ']' :: r) = true := by
  cases t <;> rw [stringifyArrTail] <;> simp +decide [headNonDigit, isDigitCh]

/-- A serialized object continuation starts with a comma or closing brace. -/
theorem headNonDigit_objTail (t : JsonObj) (r : List Char) :
    headNonDigit (stringifyObjTail t ++ rbrace :: r) = true := by
  cases t <;> rw [stringifyObjTail] <;>
    simp +decide [headNonDigit, isDigitCh, rbrace]

/-- Definitional unfolding of `parseVal` on positive fuel and a cons input. -/
theorem parseVal_cons (fuel : Nat) (c : Char) (rest : List Char) :
    parseVal (fuel + 1) (c :: rest) =
      (if c = '"' then
        match parseStrBody rest with
        | some (content, r) => some (.str (String.mk content), r)
        | none => none
      else if c = '-' then
        match parseNatNum rest with
        | some (n, r) => some (.num (-(n : Int)), r)
        | none => none
      else if isDigitCh c then
        match parseNatNum (c :: rest) with
        | some (n, r) => some (.num (n : Int), r)
        | none => none
      else if c = 't' then
        match stripPre ['r', 'u', 'e'] rest with
        | some r => some (.bool true, r)
        | none => none
      else if c = 'f' then
        match stripPre ['a', 'l', 's', 'e'] rest with
        | some r => some (.bool false, r)
        | none => none
      else if c = 'n' then
        match stripPre ['u', 'l', 'l'] rest with
        | some r => some (.null, r)
        | none => none
      else if c = '[' then
        match rest with
        | [] => none
        | c2 :: r2 =>
          if c2 = ']' then some (.arr .nil, r2)
          else
            match parseVal fuel (c2 :: r2) with
            | some (v, r3) =>
              match parseArrRest fuel r3 with
              | some (vs, r4) => some (.arr (.cons v vs), r4)
              | none => none
            | none => none
      else if c = lbrace then
        match rest with
        | [] => none
        | c2 :: r2 =>
          if c2 = rbrace then some (.obj .nil, r2)
          else
            match parseMember fuel (c2 :: r2) with
            | some (k, v, r3) =>
              match parseObjRest fuel r3 with
              | some (ms, r4) => some (.obj (.cons k v ms), r4)
              | none => none
            | none => none
      else none) := rfl

/-- Definitional unfolding of `parseArrRest` on positive fuel and a cons input. -/
theorem parseArrRest_cons (fuel : Nat) (c : Char) (rest : List Char) :
    parseArrRest (fuel + 1) (c :: rest) =
      (if c = ']' then some (.nil, rest)
      else if c = ',' then
        match parseVal fuel rest with
        | some (v, r1) =>
          match parseArrRest fuel r1 with
          | some (vs, r2) => some (.cons v vs, r2)
          | none => none
        | none => none
      else none) := rfl

/-- Definitional unfolding of `parseMember` on positive fuel and a cons input. -/
theorem parseMember_cons (fuel : Nat) (c : Char) (rest : List Char) :
    parseMember (fuel + 1) (c :: rest) =
      (if c = '"' then
        match parseStrBody rest with
        | some (kcs, r1) =>
          match r1 with
          | [] => none
          | c2 :: r2 =>
            if c2 = ':' then
              match parseVal fuel r2 with
              | some (v, r3) => some (String.mk kcs, v, r3)
              | none => none
            else none
        | none => none
      else none) := rfl

/-- Definitional unfolding of `parseObjRest` on positive fuel and a cons input. -/
theorem parseObjRest_cons (fuel : Nat) (c : Char) (rest : List Char) :
    parseObjRest (fuel + 1) (c :: rest) =
      (if c = rbrace then some (.nil, rest)
      else if c = ',' then
        match parseMember fuel rest with
        | some (k, v, r1) =>
          match parseObjRest fuel r1 with
          | some (ms, r2) => some (.cons k v ms, r2)
          | none => none
        | none => none
      else none) := rfl

/-- Joint round-trip statement for the four parsers, by induction on fuel:
with enough fuel, parsing a serialized value (continuation, member, object
tail) recovers exactly the serialized data and leaves the rest untouched. -/
theorem parseRound (fuel : Nat) :
    (∀ j r, wVal j ≤ fuel → headNonDigit r = true →
      parseVal fuel (stringifyVal j ++ r) = some (j, r)) ∧
    (∀ a r, wArr a ≤ fuel →
      parseArrRest fuel (stringifyArrTail a ++ ']' :: r) = some (a, r)) ∧
    (∀ k v r, 1 + wVal v ≤ fuel → headNonDigit r = true →
      parseMember fuel (stringifyMember k v ++ r) = some (k, v, r)) ∧
    (∀ o r, wObj o ≤ fuel →
      parseObjRest fuel (stringifyObjTail o ++ rbrace :: r) = some (o, r)) := by
  induction fuel with
  | zero =>
    refine ⟨?_, ?_, ?_, ?_⟩
    · intro j r hw _
      have := wVal_pos j
      omega
    · intro a r hw
      have := wArr_pos a
      omega
    · intro k v r hw _
      have := wVal_pos v
      omega
    · intro o r hw
      have := wObj_pos o
      omega
  | succ fuel ih =>
    obtain ⟨ihV, ihA, ihM, ihO⟩ := ih
    refine ⟨?_, ?_, ?_, ?_⟩
    · intro j r hw hr
      cases j with
      | str s =>
        have heq : stringifyVal (Json.str s) ++ r =
            '"' :: (escapeChars s.data ++ '"' :: r) := by
          rw [stringifyVal]
          simp [quoteChars]
        rw [heq, parseVal_cons]
        simp +decide [parseStrBody_escape, strMk_data]
      | num n =>
        by_cases hn : n < 0
        · have heq : stringifyVal (Json.num n) ++ r =
              '-' :: (natChars n.natAbs ++ r) := by
            rw [stringifyVal]
            simp [intChars, hn]
          rw [heq, parseVal_cons]
          simp +decide [parseNatNum_natChars n.natAbs r hr]
          rw [abs_of_neg hn]
          ring
        · cases hnd : natDigits n.natAbs with
          | nil => exact absurd hnd (natDigits_ne_nil _)
          | cons d ds =>
            have hd : d < 10 := natDigits_lt _ d (by rw [hnd]; simp)
            have heq : stringifyVal (Json.num n) ++ r =
                digitChar d :: (ds.map digitChar ++ r) := by
              rw [stringifyVal]
              simp [intChars, hn, natChars, hnd]
            rw [heq, parseVal_cons]
            have hb : digitChar d :: (ds.map digitChar ++ r) = natChars n.natAbs ++ r := by
              simp [natChars, hnd]
            have hcast : ((n.natAbs : Int)) = n := by omega
            simp only [isDigitCh_digitChar d hd, (digitChar_ne d hd).1,
              (digitChar_ne d hd).2.1, if_true, if_false, if_neg, hb,
              parseNatNum_natChars n.natAbs r hr, hcast]
      | bool b =>
        cases b
        · have heq : stringifyVal (Json.bool false) ++ r =
              'f' :: 'a' :: 'l' :: 's' :: 'e' :: r := by
            rw [stringifyVal]
            simp
          rw [heq, parseVal_cons]
          simp +decide [stripPre]
        · have heq : stringifyVal (Json.bool true) ++ r =
              't' :: 'r' :: 'u' :: 'e' :: r := by
            rw [stringifyVal]
            simp
          rw [heq, parseVal_cons]
          simp +decide [stripPre]
      | null =>
        have heq : stringifyVal Json.null ++ r = 'n' :: 'u' :: 'l' :: 'l' :: r := by
          rw [stringifyVal]
          simp
        rw [heq, parseVal_cons]
        simp +decide [stripPre]
      | arr a =>
        cases a with
        | nil =>
          have heq : stringifyVal (Json.arr .nil) ++ r = '[' :: ']' :: r := by
            rw [stringifyVal, stringifyArrAll]
            simp
          rw [heq, parseVal_cons]
          simp +decide
        | cons h t =>
          obtain ⟨ch, ctl, hch, hne⟩ := stringifyVal_head h
          have heq : stringifyVal (Json.arr (.cons h t)) ++ r =
              '[' :: (ch :: (ctl ++ (stringifyArrTail t ++ ']' :: r))) := by
            rw [stringifyVal, stringifyArrAll, hch]
            simp
          rw [heq, parseVal_cons]
          rw [wVal, wArr] at hw
          have hv : parseVal fuel (ch :: (ctl ++ (stringifyArrTail t ++ ']' :: r))) =
              some (h, stringifyArrTail t ++ ']' :: r) := by
            have := ihV h (stringifyArrTail t ++ ']' :: r) (by omega)
              (headNonDigit_arrTail t r)
            rw [hch] at this
            simpa using this
          have ha := ihA t r (by omega)
          simp +decide [hne, hv, ha]
      | obj o =>
        cases o with
        | nil =>
          have heq : stringifyVal (Json.obj .nil) ++ r = lbrace :: rbrace :: r := by
            rw [stringifyVal, stringifyObjAll]
            simp
          rw [heq, parseVal_cons]
          simp +decide [lbrace, rbrace]
        | cons k v t =>
          have heq : stringifyVal (Json.obj (.cons k v t)) ++ r =
              lbrace :: ('"' :: (escapeChars k.data ++ '"' ::
                (':' :: (stringifyVal v ++ (stringifyObjTail t ++ rbrace :: r))))) := by
            rw [stringifyVal, stringifyObjAll, stringifyMember]
            simp [quoteChars]
          rw [heq, parseVal_cons]
          rw [wVal, wObj] at hw
          have hm : parseMember fuel ('"' :: (escapeChars k.data ++ '"' ::
              (':' :: (stringifyVal v ++ (stringifyObjTail t ++ rbrace :: r))))) =
              some (k, v, stringifyObjTail t ++ rbrace :: r) := by
            have := ihM k v (stringifyObjTail t ++ rbrace :: r) (by omega)
              (headNonDigit_objTail t r)
            rw [stringifyMember] at this
            simpa [quoteChars] using this
          have ho := ihO t r (by omega)
          simp only [rbrace] at hm ho
          simp +decide [lbrace, rbrace, hm, ho]
    · intro a r hw
      cases a with
      | nil =>
        rw [stringifyArrTail]
        simp only [List.nil_append]
        rw [parseArrRest_cons]
        simp +decide
      | cons h t =>
        rw [wArr] at hw
        have heq : stringifyArrTail (JsonArr.cons h t) ++ ']' :: r =
            ',' :: (stringifyVal h ++ (stringifyArrTail t ++ ']' :: r)) := by
          rw [stringifyArrTail]
          simp
        rw [heq, parseArrRest_cons]
        have hv := ihV h (stringifyArrTail t ++ ']' :: r) (by omega)
          (headNonDigit_arrTail t r)
        have ha := ihA t r (by omega)
        simp +decide [hv, ha]
    · intro k v r hw hr
      have heq : stringifyMember k v ++ r =
          '"' :: (escapeChars k.data ++ '"' :: (':' :: (stringifyVal v ++ r))) := by
        rw [stringifyMember]
        simp [quoteChars]
      rw [heq, parseMember_cons]
      have hv := ihV v r (by omega) hr
      simp +decide [parseStrBody_escape, hv, strMk_data]
    · intro o r hw
      cases o with
      | nil =>
        rw [stringifyObjTail]
        simp only [List.nil_append]
        rw [parseObjRest_cons]
        simp +decide [rbrace]
      | cons k v t =>
        rw [wObj] at hw
        have heq : stringifyObjTail (JsonObj.cons k v t) ++ rbrace :: r =
            ',' :: (stringifyMember k v ++ (stringifyObjTail t ++ rbrace :: r)) := by
          rw [stringifyObjTail]
          simp
        rw [heq, parseObjRest_cons]
        have hm := ihM k v (stringifyObjTail t ++ rbrace :: r) (by omega)
          (headNonDigit_objTail t r)
        have ho := ihO t r (by omega)
        simp only [rbrace] at hm ho
        simp +decide [rbrace, hm, ho]

mutual

/-- The fuel needed for a value is at most its serialized length plus one. -/
theorem wValBound : (j : Json) → wVal j ≤ (stringifyVal j).length + 1
  | .str s => by
    rw [wVal]
    omega
  | .num n => by
    rw [wVal]
    omega
  | .bool b => by
    rw [wVal]
    omega
  | .null => by
    rw [wVal]
    omega
  | .arr .nil => by
    rw [wVal, wArr, stringifyVal, stringifyArrAll]
    simp
  | .arr (.cons h t) => by
    have h1 := wValBound h
    have h2 := wArrBound t
    rw [wVal, wArr, stringifyVal, stringifyArrAll]
    simp only [List.length_append, List.length_cons]
    omega
  | .obj .nil => by
    rw [wVal, wObj, stringifyVal, stringifyObjAll]
    simp
  | .obj (.cons k v t) => by
    have h1 := wValBound v
    have h2 := wObjBound t
    rw [wVal, wObj, stringifyVal, stringifyObjAll, stringifyMember]
    simp only [List.length_append, List.length_cons, quoteChars]
    omega

/-- The fuel needed for an array continuation is at most its serialized
length plus one. -/
theorem wArrBound : (a : JsonArr) → wArr a ≤ (stringifyArrTail a).length + 1
  | .nil => by
    rw [wArr, stringifyArrTail]
    simp
  | .cons h t => by
    have h1 := wValBound h
    have h2 := wArrBound t
    rw [wArr, stringifyArrTail]
    simp only [List.length_append, List.length_cons]
    omega

/-- The fuel needed for an object continuation is at most its serialized
length plus one. -/
theorem wObjBound : (o : JsonObj) → wObj o ≤ (stringifyObjTail o).length + 1
  | .nil => by
    rw [wObj, stringifyObjTail]
    simp
  | .cons k v t => by
    have h1 := wValBound v
    have h2 := wObjBound t
    rw [wObj, stringifyObjTail, stringifyMember]
    simp only [List.length_append, List.length_cons, quoteChars]
    omega

end

/-- Parsing a compact serialization of any JSON value recovers that value:
the platform round trip `JSON.parse (JSON.stringify v) = v`. -/
theorem parseTopLevel_stringify (j : Json) : parseTopLevel (jsonStringify j) = some j := by
  unfold parseTopLevel jsonStringify
  have hdata : (String.mk (stringifyVal j)).data = stringifyVal j := rfl
  rw [hdata]
  have hb := wValBound j
  have h := (parseRound ((stringifyVal j).length + 2)).1 j [] (by omega)
    (by rw [headNonDigit])
  rw [List.append_nil] at h
  rw [h]

/-- A value stored in one table cell. Numbers are modelled as integers,
matching the JSON model above. -/
inductive CellValue where
  | s (v : String)
  | n (v : Int)
  | b (v : Bool)
  | null
deriving DecidableEq

/-- Modelled from the spec: `DictTable` (declared in
`src/components/ComponentType`, not part of the sources) is a named
rectangular dataset - id (unique, stable), display name, ordered column list,
row data, and an optional semantic-type annotation per column (absent until
inference completes). -/
structure DictTable where
  id : String
  displayName : String
  columns : List String
  rows : List (List CellValue)
  semanticTypes : List (Option String)
deriving DecidableEq

/-- The three values of the view-mode enum. -/
inductive ViewMode where
  | gallery
  | carousel
  | database
deriving DecidableEq

/-- Modelled from the spec: the `DataFormulatorState` tree owned by the store
(`src/app/dfSlice` is not part of the sources) - an ordered table sequence,
the view-mode enum and the beta flag; further UI fields are opaque to this
core. -/
structure DataFormulatorState where
  tables : List DictTable
  visViewMode : ViewMode
  betaMode : Bool
deriving DecidableEq

/-- String form of a view mode, as serialized into a session file. -/
def viewModeToString : ViewMode → String
  | .gallery => "gallery"
  | .carousel => "carousel"
  | .database => "database"

/-- Parse a view-mode string; anything but the three enum values is rejected. -/
def viewModeOfString (s : String) : Option ViewMode :=
  if s = "gallery" then some .gallery
  else if s = "carousel" then some .carousel
  else if s = "database" then some .database
  else none

/-- Convert a list of JSON values into the bespoke array representation. -/
def listToArr : List Json → JsonArr
  | [] => .nil
  | j :: js => .cons j (listToArr js)

/-- Traverse a JSON array with a partial element decoder. -/
def arrMapM {α : Type} (f : Json → Option α) : JsonArr → Option (List α)
  | .nil => some []
  | .cons j t =>
    match f j, arrMapM f t with
    | some x, some xs => some (x :: xs)
    | _, _ => none

/-- First value stored under a key of a JSON object. -/
def jlookup (k : String) : JsonObj → Option Json
  | .nil => none
  | .cons k2 v t => if k = k2 then some v else jlookup k t

/-- JSON form of a cell value. -/
def cellToJson : CellValue → Json
  | .s v => .str v
  | .n v => .num v
  | .b v => .bool v
  | .null => .null

/-- Decode a cell value; arrays and objects are not cell values. -/
def cellFromJson : Json → Option CellValue
  | .str v => some (.s v)
  | .num v => some (.n v)
  | .bool v => some (.b v)
  | .null => some .null
  | _ => none

/-- JSON form of one table row. -/
def rowToJson (row : List CellValue) : Json := .arr (listToArr (row.map cellToJson))

/-- Decode one table row. -/
def rowFromJson : Json → Option (List CellValue)
  | .arr a => arrMapM cellFromJson a
  | _ => none

/-- JSON form of an optional semantic-type annotation (`null` when absent). -/
def stToJson : Option String → Json
  | some s => .str s
  | none => .null

/-- Decode an optional semantic-type annotation. -/
def stFromJson : Json → Option (Option String)
  | .str s => some (some s)
  | .null => some none
  | _ => none

/-- Decode a JSON string. -/
def asStr : Json → Option String
  | .str s => some s
  | _ => none

/-- JSON form of a table, with its fields in declaration order. -/
def tableToJson (t : DictTable) : Json :=
  .obj (.cons "id" (.str t.id)
    (.cons "displayName" (.str t.displayName)
    (.cons "columns" (.arr (listToArr (t.columns.map Json.str)))
    (.cons "rows" (.arr (listToArr (t.rows.map rowToJson)))
    (.cons "semanticTypes" (.arr (listToArr (t.semanticTypes.map stToJson)))
      .nil)))))

/-- Structural validation and decoding of a table: every required field must
be present with the right shape; extra fields are ignored. -/
def tableFromJson (j : Json) : Option DictTable :=
  match j with
  | .obj o =>
    match jlookup "id" o, jlookup "displayName" o, jlookup "columns" o,
        jlookup "rows" o, jlookup "semanticTypes" o with
    | some jid, some jdn, some (.arr ac), some (.arr ar), some (.arr ast) =>
      match asStr jid, asStr jdn, arrMapM asStr ac, arrMapM rowFromJson ar,
          arrMapM stFromJson ast with
      | some i, some dn, some cols, some rws, some sts =>
        some ⟨i, dn, cols, rws, sts⟩
      | _, _, _, _, _ => none
    | _, _, _, _, _ => none
  | _ => none

/-- JSON form of the whole application state, as `JSON.stringify` serializes
the store's tree. -/
def stateToJson (s : DataFormulatorState) : Json :=
  .obj (.cons "tables" (.arr (listToArr (s.tables.map tableToJson)))
    (.cons "visViewMode" (.str (viewModeToString s.visViewMode))
    (.cons "betaMode" (.bool s.betaMode) .nil)))

/-- Modelled from the spec: the structural validation `loadState` performs on
a decoded snapshot before replacing the tree (`src/app/dfSlice` is not part
of the sources): each recognized field must be present with the right shape,
unknown extra fields never cause failure. -/
def stateFromJson (j : Json) : Option DataFormulatorState :=
  match j with
  | .obj o =>
    match jlookup "tables" o, jlookup "visViewMode" o, jlookup "betaMode" o with
    | some (.arr ta), some (.str vs), some (.bool b) =>
      match arrMapM tableFromJson ta, viewModeOfString vs with
      | some tabs, some vm => some ⟨tabs, vm, b⟩
      | _, _ => none
    | _, _, _ => none
  | _ => none

/-- Decoding after encoding a cell value is the identity. -/
theorem cellFromJson_cellToJson (c : CellValue) : cellFromJson (cellToJson c) = some c := by
  cases c <;> rfl

/-- Decoding after encoding an optional semantic type is the identity. -/
theorem stFromJson_stToJson (x : Option String) : stFromJson (stToJson x) = some x := by
  cases x <;> rfl

/-- Traversing an encoded list with a decoder that inverts the encoder
recovers the original list. -/
theorem arrMapM_listToArr {α : Type} (f : Json → Option α) (g : α → Json)
    (l : List α) (h : ∀ x ∈ l, f (g x) = some x) :
    arrMapM f (listToArr (l.map g)) = some l := by
  induction l with
  | nil => rfl
  | cons x xs ih =>
    simp only [List.map_cons, listToArr, arrMapM, h x (by simp),
      ih (fun y hy => h y (by simp [hy]))]

/-- Decoding after encoding a row is the identity. -/
theorem rowFromJson_rowToJson (row : List CellValue) :
    rowFromJson (rowToJson row) = some row := by
  rw [rowToJson, rowFromJson]
  exact arrMapM_listToArr _ _ _ (fun x _ => cellFromJson_cellToJson x)

/-- Decoding after encoding a table is the identity. -/
theorem tableFromJson_tableToJson (t : DictTable) :
    tableFromJson (tableToJson t) = some t := by
  rw [tableToJson, tableFromJson]
  simp +decide only [jlookup, if_true, if_false, reduceIte]
  rw [arrMapM_listToArr asStr Json.str t.columns (fun x _ => rfl),
    arrMapM_listToArr rowFromJson rowToJson t.rows
      (fun x _ => rowFromJson_rowToJson x),
    arrMapM_listToArr stFromJson stToJson t.semanticTypes
      (fun x _ => stFromJson_stToJson x)]
  rfl

/-- Round trip of the view-mode enum through its string form. -/
theorem viewModeOfString_toString (v : ViewMode) :
    viewModeOfString (viewModeToString v) = some v := by
  cases v <;> rfl

/-- Decoding after encoding the application state is the identity: the
structural validation accepts exactly the encoded tree and rebuilds an equal
state. -/
theorem stateFromJson_stateToJson (s : DataFormulatorState) :
    stateFromJson (stateToJson s) = some s := by
  rw [stateToJson, stateFromJson]
  simp +decide only [jlookup, if_true, if_false, reduceIte]
  rw [arrMapM_listToArr tableFromJson tableToJson s.tables
    (fun x _ => tableFromJson_tableToJson x), viewModeOfString_toString]

/-- Modelled from the spec: the store actions of this core (§4.1 of the
spec; `src/app/dfSlice` is not part of the sources). -/
inductive DfAction where
  | loadTable (t : DictTable)
  | resetState
  | setVisViewMode (mode : String)
  | loadState (snapshot : Json)

/-- Modelled from the spec: the default state at process start. The concrete
default view mode is not fixed by the sources; `carousel` stands in for it
(no claim depends on which enum value is the default). -/
def defaultState : DataFormulatorState := ⟨[], .carousel, false⟩

/-- Modelled from the spec: `loadTable` appends a table, or replaces the
table with the same id. -/
def loadTableUpsert (ts : List DictTable) (t : DictTable) : List DictTable :=
  if ts.any (fun u => u.id == t.id) then
    ts.map (fun u => if u.id == t.id then t else u)
  else ts ++ [t]

/-- Modelled from the spec: the reducer cases of this core (§4.1):
`loadTable` upserts by id, `resetState` restores the default tree,
`setVisViewMode` validates the mode and ignores invalid values, and
`loadState` replaces the whole tree only when structural validation of the
snapshot succeeds, keeping the current tree otherwise. -/
def dfReduce (s : DataFormulatorState) : DfAction → DataFormulatorState
  | .loadTable t => { s with tables := loadTableUpsert s.tables t }
  | .resetState => defaultState
  | .setVisViewMode m =>
    match viewModeOfString m with
    | some v => { s with visViewMode := v }
    | none => s
  | .loadState j =>
    match stateFromJson j with
    | some s2 => s2
    | none => s

/-- States reachable by a finite sequence of valid dispatches from the
default state. -/
inductive Reachable : DataFormulatorState → Prop
  | init : Reachable defaultState
  | step (s : DataFormulatorState) (a : DfAction) :
      Reachable s → Reachable (dfReduce s a)

/-- The session text written by the export button:
`JSON.stringify(state)` (src/app/App.tsx line 142). -/
def encodeState (s : DataFormulatorState) : String := jsonStringify (stateToJson s)

/-- The session decode performed along the import path: `JSON.parse` of the
file text (src/app/App.tsx line 103) followed by the structural validation
`loadState` applies before replacing the tree. -/
def decodeState (text : String) : Option DataFormulatorState :=
  (parseTopLevel text).bind stateFromJson

/-- C1: Round-trip law. For every ApplicationState reachable by a finite
sequence of valid dispatches from the default state, decoding the encoded
session snapshot (JSON.parse applied to the JSON.stringify output that the
export button writes and the import button reads) yields a state
structurally equal to the original: same tables, same ids, same field
values, same ordering. -/
theorem c1_session_roundtrip (s : DataFormulatorState) (h : Reachable s) :
    decodeState (encodeState s) = some s := by
  unfold decodeState encodeState
  rw [parseTopLevel_stringify]
  simp [stateFromJson_stateToJson]

/-- Demonstration table used by concrete witnesses. -/
def tDemo : DictTable :=
  ⟨"t1", "Table 1", ["a", "b"],
    [[.s "x", .n 3], [.null, .b true]], [some "categorical", none]⟩

/-- Witness for C1 at a concrete reachable state holding one table. -/
theorem c1_session_roundtrip_witness :
    decodeState (encodeState (dfReduce defaultState (DfAction.loadTable tDemo))) =
      some (dfReduce defaultState (DfAction.loadTable tDemo)) :=
  c1_session_roundtrip _ (Reachable.step _ _ Reachable.init)

/-- Observable outcome of one run of the import button's change handler:
the actions it dispatched, how many errors it wrote to the console, and the
value left in the file input element. -/
structure UploadOutcome where
  dispatched : List DfAction
  consoleErrors : Nat
  inputValue : String

/-- Platform `JSON.parse` as seen from the handler's try block: a failed parse is a
thrown SyntaxError. -/
def jsonParseJs (text : String) : Except String Json :=
  match parseTopLevel text with
  | some j => .ok j
  | none => .error "SyntaxError"

/-- Processing of one selected file inside the handler: the parse runs in a
try/catch, dispatching `loadState(parsed)` on success and writing the error
to the console on failure; no exception escapes. -/
def processFile (text : String) : List DfAction × Nat :=
  match jsonParseJs text with
  | .ok j => ([DfAction.loadState j], 0)
  | .error _ => ([], 1)

/-- Embeds `ImportStateButton.handleFileUpload` (src/app/App.tsx lines
97-115): each selected file is read and parsed through `processFile`, and
afterwards the input element's value is reset to the empty string no matter
what happened; `none` models a null `event.target.files`. -/
def handleFileUpload (files : Option (List String)) : UploadOutcome :=
  match files with
  | none => ⟨[], 0, ""⟩
  | some fs =>
    ⟨fs.foldr (fun t acc => (processFile t).1 ++ acc) [],
      fs.foldr (fun t acc => (processFile t).2 + acc) 0, ""⟩

/-- C2 counterexample: on a file whose text fails to parse, the handler
dispatches no action at all; since user-visible notices travel exclusively
through state fields changed by dispatch (spec §7), no dismissible notice is
surfaced, contrary to the claim. The failure is only written to the
console. -/
theorem c2_no_notice_on_parse_failure :
    parseTopLevel "not json" = none ∧
    (handleFileUpload (some ["not json"])).dispatched = [] ∧
    (handleFileUpload (some ["not json"])).consoleErrors = 1 := by
  refine ⟨rfl, rfl, rfl⟩

/-- C2 (amended): when the import handler is given file text that is not a
valid snapshot, the parse error is caught inside the handler so no fault
escapes, no action is dispatched (in particular no `loadState`), the state
tree is left unchanged, and the failure is reported to the console rather
than surfaced as a user-visible notice. -/
theorem c2_import_parse_failure (text : String) (h : parseTopLevel text = none) :
    (handleFileUpload (some [text])).dispatched = [] ∧
    (handleFileUpload (some [text])).consoleErrors = 1 ∧
    (∀ s : DataFormulatorState,
      ((handleFileUpload (some [text])).dispatched).foldl dfReduce s = s) ∧
    jsonParseJs text = .error "SyntaxError" := by
  unfold handleFileUpload processFile jsonParseJs
  simp only [List.foldr_cons, List.foldr_nil, h]
  simp

/-- Witness for the amended C2 at the concrete text "not json". -/
theorem c2_import_parse_failure_witness :
    (handleFileUpload (some ["not json"])).dispatched = [] ∧
    (handleFileUpload (some ["not json"])).consoleErrors = 1 ∧
    (∀ s : DataFormulatorState,
      ((handleFileUpload (some ["not json"])).dispatched).foldl dfReduce s = s) ∧
    jsonParseJs "not json" = .error "SyntaxError" :=
  c2_import_parse_failure "not json" rfl

/-- C9: after every file-selection change event handled by the import
button, regardless of whether any file was selected or parsed successfully,
the file input element's value is reset to the empty string. -/
theorem c9_input_value_reset (files : Option (List String)) :
    (handleFileUpload files).inputValue = "" := by
  cases files <;> rfl

/-- The asynchronous producers dispatched by the component: their requests
are opaque; dispatching one changes no state synchronously. -/
inductive AsyncThunk where
  | fetchFieldSemanticType (t : DictTable)
  | fetchAvailableModels

/-- An item passed to the store's `dispatch`: a plain action or an async
thunk. -/
inductive Dispatched where
  | action (a : DfAction)
  | thunk (t : AsyncThunk)

/-- Synchronous effect of one dispatched item on the store state: actions go
through the reducer; a thunk starts a request and leaves the tree as is. -/
def runDispatched (s : DataFormulatorState) : Dispatched → DataFormulatorState
  | .action a => dfReduce s a
  | .thunk _ => s

/-- Applying a dispatch list to the store state, in order. -/
def applyDispatches (s : DataFormulatorState) (l : List Dispatched) :
    DataFormulatorState :=
  l.foldl runDispatched s

/-- Embeds the `loadData` callback of the subscription registered by `AppFC`
(src/app/App.tsx lines 314-317): dispatch `loadTable(table)`, then dispatch
`fetchFieldSemanticType(table)`. -/
def loadDataCallback (table : DictTable) : List Dispatched :=
  [.action (.loadTable table), .thunk (.fetchFieldSemanticType table)]

/-- C3: when the host delivers a `loadData(table)` event to the registered
subscription, the callback dispatches `loadTable(table)` and then
`fetchFieldSemanticType(table)`, in that order, and the state changes only
by running those dispatches through the store - the resulting tree is exactly
the reducer applied to `loadTable(table)`, never a direct mutation. -/
theorem c3_loadData_dispatches_in_order (table : DictTable) (s : DataFormulatorState) :
    loadDataCallback table =
      [.action (.loadTable table), .thunk (.fetchFieldSemanticType table)] ∧
    applyDispatches s (loadDataCallback table) = dfReduce s (.loadTable table) :=
  ⟨rfl, rfl⟩

/-- Embeds the view-mode `ToggleButtonGroup` onChange handler
(src/app/App.tsx lines 387-394): `setVisViewMode(newViewMode)` is dispatched
exactly when the new value is one of the three mode strings; `none` models a
null `newViewMode`. -/
def onViewModeChange (newViewMode : Option String) : List Dispatched :=
  match newViewMode with
  | some v =>
    if v = "gallery" ∨ v = "carousel" ∨ v = "database" then
      [.action (.setVisViewMode v)]
    else []
  | none => []

/-- C4: for every change event on the view-mode toggle, a value among
"gallery", "carousel", "database" dispatches `setVisViewMode` carrying that
value, and any other value (including null) dispatches nothing, so the
current view mode is retained - a no-op, not an error. -/
theorem c4_view_mode_validation (x : Option String) :
    (∀ v, x = some v → (v = "gallery" ∨ v = "carousel" ∨ v = "database") →
      onViewModeChange x = [.action (.setVisViewMode v)]) ∧
    ((∀ v, x = some v → ¬(v = "gallery" ∨ v = "carousel" ∨ v = "database")) →
      onViewModeChange x = [] ∧
      ∀ s : DataFormulatorState, applyDispatches s (onViewModeChange x) = s) := by
  constructor
  · rintro v rfl hv
    simp [onViewModeChange, hv]
  · intro hv
    cases x with
    | none => exact ⟨rfl, fun s => rfl⟩
    | some v =>
      have hnv := hv v rfl
      have he : onViewModeChange (some v) = [] := by
        simp [onViewModeChange, hnv]
      refine ⟨he, fun s => ?_⟩
      rw [he]
      rfl

/-- Witness for C4: a valid mode dispatches it, an invalid mode dispatches
nothing. -/
theorem c4_view_mode_validation_witness :
    onViewModeChange (some "gallery") =
      [.action (.setVisViewMode "gallery")] ∧
    onViewModeChange (some "bogus") = [] :=
  ⟨(c4_view_mode_validation (some "gallery")).1 "gallery" rfl (Or.inl rfl),
    ((c4_view_mode_validation (some "bogus")).2
      (fun v hv => by
        obtain rfl : "bogus" = v := Option.some.inj hv
        decide)).1⟩

/-- Modelled from the spec: the configuration payload delivered through
`setAppConfig` (the `AppConfig` type of `src/app/utils`, not part of the
sources): the `popupConfig` sub-field threaded to the UI, plus the other
configuration fields as an opaque key/value record. -/
structure AppConfigPayload where
  popupConfig : Option Json
  fields : List (String × Json)

/-- JS truthiness of a JSON value. -/
def jsTruthy : Json → Bool
  | .str s => !(s == "")
  | .num n => !(n == 0)
  | .bool b => b
  | .null => false
  | .arr _ => true
  | .obj _ => true

/-- Modelled from the spec: `assignAppConfig` of `src/app/utils` (not part of
the sources) applies the configuration fields the application recognizes -
the keys its `appConfig` record declares - and silently ignores unrecognized
fields. -/
def assignAppConfig (cfg : AppConfigPayload) (store : List (String × Json)) :
    List (String × Json) :=
  store.map (fun kv =>
    match cfg.fields.lookup kv.1 with
    | some v => (kv.1, v)
    | none => kv)

/-- The bridge-visible state of `AppFC`: the global `appConfig` record and
the `popupConfig` React state. -/
structure AppBridgeState where
  appConfig : List (String × Json)
  popupConfig : Json

/-- Embeds the `setAppConfig` callback registered by `AppFC`
(src/app/App.tsx lines 318-321): apply the configuration through
`assignAppConfig`, and store `config.popupConfig` via `setPopupConfig` only
when it is truthy (`config.popupConfig && setPopupConfig(...)`). -/
def setAppConfigCallback (cfg : AppConfigPayload) (st : AppBridgeState) :
    AppBridgeState :=
  { appConfig := assignAppConfig cfg st.appConfig,
    popupConfig :=
      match cfg.popupConfig with
      | some p => if jsTruthy p then p else st.popupConfig
      | none => st.popupConfig }

/-- C7 counterexample: a present but falsy `popupConfig` (JS null) is not
stored - the previously stored value stays - so the claim that every given
`popupConfig` sub-field becomes the latest observable value fails at this
input. -/
theorem c7_falsy_popup_not_stored :
    (setAppConfigCallback ⟨some Json.null, []⟩
        ⟨[], Json.str "old"⟩).popupConfig = Json.str "old" ∧
    Json.str "old" ≠ Json.null :=
  ⟨rfl, fun hc => Json.noConfusion hc⟩

/-- C7 (amended): for every `setAppConfig(config)` event, the app applies
the recognized configuration fields via `assignAppConfig`, and whenever the
given `popupConfig` sub-field is truthy - which every actual `PopupConfig`
object is - it is stored as the latest observable `popupConfig` value. -/
theorem c7_setAppConfig_stores_popup (cfg : AppConfigPayload)
    (st : AppBridgeState) (p : Json) (hp : cfg.popupConfig = some p)
    (ht : jsTruthy p = true) :
    (setAppConfigCallback cfg st).popupConfig = p ∧
    (setAppConfigCallback cfg st).appConfig = assignAppConfig cfg st.appConfig := by
  unfold setAppConfigCallback
  rw [hp]
  simp [ht]

/-- Witness for the amended C7 at a concrete config whose popupConfig is an
object (truthy). -/
theorem c7_setAppConfig_stores_popup_witness :
    (setAppConfigCallback
        ⟨some (Json.obj (.cons "jumpStartCell" (Json.bool true) .nil)),
          [("serverUrl", Json.str "http://x")]⟩
        ⟨[("serverUrl", Json.str "")], Json.obj .nil⟩).popupConfig =
      Json.obj (.cons "jumpStartCell" (Json.bool true) .nil) ∧
    (setAppConfigCallback
        ⟨some (Json.obj (.cons "jumpStartCell" (Json.bool true) .nil)),
          [("serverUrl", Json.str "http://x")]⟩
        ⟨[("serverUrl", Json.str "")], Json.obj .nil⟩).appConfig =
      assignAppConfig
        ⟨some (Json.obj (.cons "jumpStartCell" (Json.bool true) .nil)),
          [("serverUrl", Json.str "http://x")]⟩
        [("serverUrl", Json.str "")] :=
  c7_setAppConfig_stores_popup _ _ _ rfl rfl

/-- C8: when the `setAppConfig` callback receives a config whose
`popupConfig` field is absent or otherwise falsy, the previously stored
`popupConfig` value is left unchanged; only a present (truthy) `popupConfig`
replaces it. -/
theorem c8_falsy_popup_keeps_previous (cfg : AppConfigPayload)
    (st : AppBridgeState)
    (h : cfg.popupConfig = none ∨
      ∃ p, cfg.popupConfig = some p ∧ jsTruthy p = false) :
    (setAppConfigCallback cfg st).popupConfig = st.popupConfig := by
  unfold setAppConfigCallback
  rcases h with h | ⟨p, hp, ht⟩
  · rw [h]
  · rw [hp]
    simp [ht]

/-- Witness for C8 at a concrete config without popupConfig. -/
theorem c8_falsy_popup_keeps_previous_witness :
    (setAppConfigCallback ⟨none, [("serverUrl", Json.str "http://x")]⟩
        ⟨[], Json.str "kept"⟩).popupConfig = Json.str "kept" :=
  c8_falsy_popup_keeps_previous _ _ (Or.inl rfl)

/-- Modelled from the spec: a host subscription registered with the
embedding bridge of `src/app/embed` (not part of the sources) - a capability
object with optional callback slots; the numeric `sid` stands for JS object
identity, under which the registry adds and removes subscriptions. -/
structure ActionSubscription where
  sid : Nat
  loadData : Option (DictTable → List Dispatched)
  setAppConfig : Option (AppConfigPayload → AppBridgeState → AppBridgeState)

/-- Modelled from the spec: `subscribe` is an idempotent, identity-keyed
add to the process-wide registry. -/
def subscribe (sub : ActionSubscription) (reg : List ActionSubscription) :
    List ActionSubscription :=
  if reg.any (fun u => u.sid == sub.sid) then reg else reg ++ [sub]

/-- Modelled from the spec: `unsubscribe` removes by identity; removing a
subscription not currently registered is a no-op. -/
def unsubscribe (sub : ActionSubscription) (reg : List ActionSubscription) :
    List ActionSubscription :=
  reg.filter (fun u => u.sid != sub.sid)

/-- Deliveries of a `loadData` bridge event: each registered subscription
whose slot is present is invoked once, in registration order; each delivery
is recorded as the invoked subscription's identity with its dispatch list. -/
def notifyLoadData (reg : List ActionSubscription) (t : DictTable) :
    List (Nat × List Dispatched) :=
  reg.filterMap (fun sub => sub.loadData.map (fun f => (sub.sid, f t)))

/-- Deliveries of a `setAppConfig` bridge event, analogous to
`notifyLoadData`. -/
def notifyConfig (reg : List ActionSubscription) (cfg : AppConfigPayload) :
    List (Nat × (AppBridgeState → AppBridgeState)) :=
  reg.filterMap (fun sub => sub.setAppConfig.map (fun f => (sub.sid, f cfg)))

/-- The subscription effect of `AppFC` and its cleanup (src/app/App.tsx
lines 312-327): subscribe at mount; at teardown call `unsubscribe` with the
identical subscription object. -/
def mountThenUnmount (sub : ActionSubscription)
    (reg : List ActionSubscription) : List ActionSubscription :=
  unsubscribe sub (subscribe sub reg)

/-- C5: the subscription registered at mount is removed at teardown by
`unsubscribe` with the identical object (identity-keyed removal): for a
fresh identity the registry returns to exactly its previous contents, and
after teardown no `loadData` or `setAppConfig` bridge event ever invokes
that subscription's callbacks. -/
theorem c5_teardown_removes_subscription (sub : ActionSubscription)
    (reg : List ActionSubscription) (hfresh : ∀ u ∈ reg, u.sid ≠ sub.sid) :
    mountThenUnmount sub reg = reg ∧
    (∀ t, sub.sid ∉ (notifyLoadData (mountThenUnmount sub reg) t).map Prod.fst) ∧
    (∀ cfg, sub.sid ∉ (notifyConfig (mountThenUnmount sub reg) cfg).map Prod.fst) := by
  have hany : reg.any (fun u => u.sid == sub.sid) = false := by
    rw [List.any_eq_false]
    intro u hu
    simpa using hfresh u hu
  have hreg : mountThenUnmount sub reg = reg := by
    unfold mountThenUnmount subscribe unsubscribe
    rw [hany]
    simp only [Bool.false_eq_true, if_false, List.filter_append]
    have h1 : reg.filter (fun u => u.sid != sub.sid) = reg := by
      rw [List.filter_eq_self]
      intro u hu
      simpa using hfresh u hu
    have h2 : [sub].filter (fun u => u.sid != sub.sid) = [] := by
      simp
    rw [h1, h2, List.append_nil]
  refine ⟨hreg, ?_, ?_⟩
  · intro t hmem
    rw [hreg] at hmem
    simp only [notifyLoadData, List.map_filterMap, List.mem_filterMap] at hmem
    obtain ⟨u, hu, hval⟩ := hmem
    cases hld : u.loadData with
    | none => rw [hld] at hval; simp at hval
    | some f =>
      rw [hld] at hval
      simp at hval
      exact hfresh u hu hval
  · intro cfg hmem
    rw [hreg] at hmem
    simp only [notifyConfig, List.map_filterMap, List.mem_filterMap] at hmem
    obtain ⟨u, hu, hval⟩ := hmem
    cases hld : u.setAppConfig with
    | none => rw [hld] at hval; simp at hval
    | some f =>
      rw [hld] at hval
      simp at hval
      exact hfresh u hu hval

/-- Concrete subscription used by the C5 witness, with both callback slots
present. -/
def subDemo : ActionSubscription :=
  ⟨0, some loadDataCallback, some setAppConfigCallback⟩

/-- Witness for C5 at the empty registry and a concrete subscription. -/
theorem c5_teardown_removes_subscription_witness :
    mountThenUnmount subDemo [] = [] ∧
    (∀ t, subDemo.sid ∉ (notifyLoadData (mountThenUnmount subDemo []) t).map Prod.fst) ∧
    (∀ cfg, subDemo.sid ∉ (notifyConfig (mountThenUnmount subDemo []) cfg).map Prod.fst) :=
  c5_teardown_removes_subscription subDemo [] (fun u hu => absurd hu (List.not_mem_nil u))

/-- Outcome of the GET to the well-known auth path as the probe's promise
chain sees it: either a failure anywhere before the body is available
(network error, or a body that is not JSON), or a parsed JSON body. -/
inductive FetchOutcome where
  | failed
  | ok (body : Json)

/-- JS property access, which may throw: reading a property of an object
looks it up (`none` is JS undefined), reading a property of null throws a
TypeError, and reading a property of another primitive yields undefined. -/
def jsMember (j : Json) (k : String) : Except Unit (Option Json) :=
  match j with
  | .obj o => .ok (jlookup k o)
  | .null => .error ()
  | _ => .ok none

/-- The `find(item => item.typ == 'name')` call over the claim list: the
first element whose `typ` member equals the string "name"; reading `typ` of
a null element throws. -/
def findNameClaim : JsonArr → Except Unit (Option Json)
  | .nil => .ok none
  | .cons i t =>
    match jsMember i "typ" with
    | .error e => .error e
    | .ok tv =>
      match tv with
      | some (.str s) => if s = "name" then .ok (some i) else findNameClaim t
      | _ => findNameClaim t

/-- The optional chain `found?.val`: undefined stays undefined, otherwise the
`val` member is read. -/
def valOfFound : Option Json → Except Unit (Option Json)
  | some item => jsMember item "val"
  | none => .ok none

/-- The signed-in identity as the component state stores it: the display
name value and the raw `user_id` member (possibly undefined). -/
structure UserIdentity where
  name : Json
  userId : Option Json

/-- Embeds the fulfilled branch of the auth probe (src/app/App.tsx lines
332-343) as a JS computation that may throw: when the body is a non-empty
array, read `user_claims` of its first element, `.find` the claim whose
`typ` is "name" (a missing or non-array `user_claims` makes `.find` throw),
take its `val` with the empty-string fallback for falsy values, read
`user_id`, and produce the identity; any other body shape sets nothing. -/
def authThen (body : Json) : Except Unit (Option UserIdentity) :=
  match body with
  | .arr (.cons a _) =>
    match jsMember a "user_claims" with
    | .error e => .error e
    | .ok claimsOpt =>
      match claimsOpt with
      | some (.arr claims) =>
        match findNameClaim claims with
        | .error e => .error e
        | .ok found =>
          match valOfFound found with
          | .error e => .error e
          | .ok val0 =>
            let nm :=
              match val0 with
              | some v => if jsTruthy v then v else Json.str ""
              | none => Json.str ""
            match jsMember a "user_id" with
            | .error e => .error e
            | .ok uid => .ok (some ⟨nm, uid⟩)
      | _ => .error ()
  | _ => .ok none

/-- Embeds the whole auth probe (src/app/App.tsx lines 329-348): the
then-callback runs on a parsed body and the trailing `.catch` swallows both
fetch failures and any exception thrown inside the callback, leaving the
identity unset. -/
def authProbe (r : FetchOutcome) : Option UserIdentity :=
  match r with
  | .failed => none
  | .ok body =>
    match authThen body with
    | .ok u => u
    | .error _ => none

/-- C6: the auth probe sets a signed-in identity only when the GET yields a
non-empty JSON array; on any failure - network error, non-array result, or
empty array - the identity remains absent, and an exception inside the
extraction is swallowed by the `.catch`, so no error escapes and the
application proceeds without an identity. -/
theorem c6_auth_probe_best_effort :
    (∀ r : FetchOutcome, (∀ h t, r ≠ .ok (.arr (.cons h t))) →
      authProbe r = none) ∧
    (∀ body e, authThen body = .error e → authProbe (.ok body) = none) ∧
    (∀ r u, authProbe r = some u → ∃ h t, r = .ok (.arr (.cons h t))) := by
  refine ⟨?_, ?_, ?_⟩
  · intro r hr
    cases r with
    | failed => rfl
    | ok body =>
      cases body with
      | arr a =>
        cases a with
        | nil => rfl
        | cons h t => exact absurd rfl (hr h t)
      | str s => rfl
      | num n => rfl
      | bool b => rfl
      | null => rfl
      | obj o => rfl
  · intro body e he
    show (match authThen body with
      | Except.ok u => u
      | Except.error _ => none) = none
    rw [he]
  · intro r u hu
    cases r with
    | failed => exact absurd hu (by simp [authProbe])
    | ok body =>
      cases body with
      | arr a =>
        cases a with
        | nil => exact absurd hu (by simp [authProbe, authThen])
        | cons h t => exact ⟨h, t, rfl⟩
      | str s => exact absurd hu (by simp [authProbe, authThen])
      | num n => exact absurd hu (by simp [authProbe, authThen])
      | bool b => exact absurd hu (by simp [authProbe, authThen])
      | null => exact absurd hu (by simp [authProbe, authThen])
      | obj o => exact absurd hu (by simp [authProbe, authThen])

/-- Witness for C6: a non-array body and a thrown extraction both leave the
identity absent. -/
theorem c6_auth_probe_best_effort_witness :
    authProbe (.ok (Json.str "unexpected")) = none ∧
    authProbe .failed = none :=
  ⟨c6_auth_probe_best_effort.1 (.ok (Json.str "unexpected"))
      (fun h t hc => by simp at hc),
    c6_auth_probe_best_effort.1 .failed (fun h t hc => by simp at hc)⟩

/-- JS `String.prototype.split` on a single-character separator, over the
character list: splitting the empty string gives one empty piece. -/
def splitChars (sep : Char) : List Char → List (List Char)
  | [] => [[]]
  | c :: rest =>
    let r := splitChars sep rest
    if c = sep then [] :: r
    else
      match r with
      | [] => [[c]]
      | h :: t => (c :: h) :: t

/-- JS `name.split(' ')`. -/
def jsSplit (s : String) (sep : Char) : List String :=
  (splitChars sep s.data).map String.mk

/-- Splitting never yields an empty list of pieces. -/
theorem splitChars_ne_nil (sep : Char) (cs : List Char) :
    splitChars sep cs ≠ [] := by
  induction cs with
  | nil => simp [splitChars]
  | cons c rest ih =>
    rw [splitChars.eq_def]
    by_cases hc : c = sep
    · simp [hc]
    · simp only [hc, if_false]
      cases splitChars sep rest with
      | nil => simp
      | cons h t => simp

/-- JS string indexing: a character for an index in range, undefined
otherwise; it never throws on a string. -/
def strIdx (s : String) (i : Nat) : Option Char := s.data.get? i

/-- Template-literal rendering of a possibly-undefined character: JS prints
`undefined` as the text "undefined". -/
def optCharStr : Option Char → String
  | some c => String.mk [c]
  | none => "undefined"

/-- Embeds the try block of `stringAvatar` (src/app/App.tsx lines 506-507)
as a JS computation that may throw: indexing the split array out of range
yields undefined, and indexing into undefined throws a TypeError. -/
def tryInitials (name : String) : Except Unit String :=
  let parts := jsSplit name ' '
  match parts.get? 0 with
  | none => .error ()
  | some p0 =>
    let first := optCharStr (strIdx p0 0)
    if parts.length > 1 then
      match parts.get? (parts.length - 1) with
      | none => .error ()
      | some pl => .ok (first ++ optCharStr (strIdx pl 0))
    else .ok (first ++ "")

/-- The props record `stringAvatar` returns. -/
structure AvatarProps where
  bgcolor : String
  width : Nat
  height : Nat
  margin : String
  fontSize : String
  children : String
deriving DecidableEq

/-- Embeds `stringAvatar` (src/app/App.tsx lines 503-521): the initials
computation runs in a try/catch whose fallback display name is the first
character of the name, or "?" for an empty name; the styling fields are
fixed. -/
def stringAvatar (name : String) : AvatarProps :=
  { bgcolor := "cornflowerblue", width := 36, height := 36, margin := "auto",
    fontSize := "1rem",
    children :=
      match tryInitials name with
      | .ok d => d
      | .error _ => if name = "" then "?" else optCharStr (strIdx name 0) }

/-- C10: `stringAvatar` returns a result without throwing for every string
input, including the empty string and single-word names: the initials
computation itself never reaches the catch branch on a string (split always
yields at least one piece), and the function's catch would replace any
exception with a fallback name, so no error passes the function boundary. -/
theorem c10_stringAvatar_never_throws (name : String) :
    ∃ d, tryInitials name = .ok d ∧ (stringAvatar name).children = d := by
  have hne : jsSplit name ' ' ≠ [] := by
    unfold jsSplit
    simp [splitChars_ne_nil]
  obtain ⟨d, hd⟩ : ∃ d, tryInitials name = .ok d := by
    cases hp : jsSplit name ' ' with
    | nil => exact absurd hp hne
    | cons p0 ps =>
      unfold tryInitials
      rw [hp]
      simp only [List.get?_cons_zero]
      by_cases hlen : (p0 :: ps).length > 1
      · cases hq : (p0 :: ps).get? ((p0 :: ps).length - 1) with
        | none =>
          rw [List.get?_eq_none] at hq
          simp at hq
        | some pl =>
          simp only [hlen, if_true, hq]
          exact ⟨_, rfl⟩
      · simp only [hlen, if_false]
        exact ⟨_, rfl⟩
  refine ⟨d, hd, ?_⟩
  unfold stringAvatar
  rw [hd]

end DF
